import Mathlib

/-!
Verification of the `ObjectHub` registry
(`src/mmengine/registry/object_hub.py`): a named in-process registry
mapping string aliases to runtime values, with dotted-path resolution
into nested dict / sequence / attribute-bearing values.

The embedding translates the Python source directly:

* Python runtime values are modelled by the inductive `Value` below:
  integers, strings, string-keyed dicts, sequences (`list`/`tuple`),
  and structured objects carrying a class name and named data fields.
* The dict `self._objects` is modelled as an association list with
  in-place overwrite (`alInsert`), matching Python dict assignment.
* `raise` is modelled with `Except`: an operation that raises returns
  `.error e` and produces no successor state, matching the source,
  where every `raise` happens before any mutation.
* `key_path.split('.')` (a single-character separator) is modelled by
  `pySplitCh '.'` on the character list, which agrees with Python
  `str.split` for one-character separators (in particular
  `"".split('.') == [""]`).
-/

/-- Model of a Python runtime value, as far as `ObjectHub` inspects it:
`dict` covers string-keyed mappings, `list` covers the sequences
(`list` and `tuple`) accepted by the index branch, and `obj` covers
structured objects exposing named data fields (`getattr`), tagged with
their class name (`type(x).__name__`). -/
inductive Value where
  | int (n : Int)
  | str (s : String)
  | dict (fields : List (String × Value))
  | list (elems : List Value)
  | obj (className : String) (fields : List (String × Value))
deriving Repr

/-- First-value-for-key lookup in an association list: the model of
`d[k]` / `k in d` on a Python dict. -/
def alLookup (m : List (String × Value)) (k : String) : Option Value :=
  match m with
  | [] => none
  | (k', v) :: rest => if k' = k then some v else alLookup rest k

/-- Overwrite-or-append: the model of `d[k] = v` on a Python dict
(replaces the value in place if the key exists, otherwise appends). -/
def alInsert (m : List (String × Value)) (k : String) (v : Value) :
    List (String × Value) :=
  match m with
  | [] => [(k, v)]
  | (k', v') :: rest =>
      if k' = k then (k, v) :: rest else (k', v') :: alInsert rest k v

/-- Remove the first binding of `k`: the model of `del d[k]`. -/
def alErase (m : List (String × Value)) (k : String) :
    List (String × Value) :=
  match m with
  | [] => []
  | (k', v') :: rest =>
      if k' = k then rest else (k', v') :: alErase rest k

/-- The key list: the model of `list(d.keys())`. -/
def alKeys (m : List (String × Value)) : List String :=
  m.map Prod.fst

/-- The errors `ObjectHub` raises, carrying exactly the data
interpolated into the corresponding Python exception message:
`invalidAlias` and `aliasCollision` and `resolutionFailed` are
`ValueError`, `unresolvedAlias` is `KeyError`, `accessDenied` is
`PermissionError`. -/
inductive HubError where
  | invalidAlias (aliasArg : Value)
  | aliasCollision (aliasArg : String)
  | unresolvedAlias (refName : String) (hubName : String)
      (available : List String)
  | accessDenied (attr : String)
  | resolutionFailed (keyPath : String) (step : String)
      (typeName : String)
deriving Repr

/-- The registry state: `instance_name` (set by `ManagerMixin` at
construction) and the alias table `self._objects`. -/
structure ObjectHub where
  instance_name : String
  _objects : List (String × Value)
deriving Repr

/-- `ObjectHub.__init__`: `self._objects = {}`. -/
def ObjectHub.init (name : String) : ObjectHub :=
  { instance_name := name, _objects := [] }

/-- `ObjectHub.register`.  The `alias` argument is a `Value` because
the source checks `isinstance(alias, str)` at runtime; on success the
new registry state is returned, on `raise` no state is produced. -/
def register (h : ObjectHub) (aliasArg : Value) (obj : Value)
    (force : Bool) : Except HubError ObjectHub :=
  match aliasArg with
  | .str s =>
      if s = "" then
        .error (.invalidAlias aliasArg)
      else if (alLookup h._objects s).isSome && !force then
        .error (.aliasCollision s)
      else
        .ok { h with _objects := alInsert h._objects s obj }
  | _ => .error (.invalidAlias aliasArg)

/-- Model of Python `s.split(sep)` for a one-character separator,
on the character list: `pySplitCh sep []` is `[[]]`, matching
`"".split('.') == [""]`. -/
def pySplitCh (sep : Char) : List Char → List (List Char)
  | [] => [[]]
  | c :: cs =>
      if c = sep then [] :: pySplitCh sep cs
      else
        match pySplitCh sep cs with
        | [] => [[c]]
        | l :: ls => (c :: l) :: ls

/-- `key_path.split('.')` as a list of strings. -/
def pySplit (sep : Char) (s : String) : List String :=
  (pySplitCh sep s.data).map fun cs => ⟨cs⟩

/-- Model of Python `s.startswith(p)` for a one-character prefix `p`,
as used in the per-step check `attr.startswith('_')`. -/
def pyStartsWith (c : Char) (s : String) : Bool :=
  match s.data with
  | [] => false
  | c' :: _ => c' = c

/-- Model of Python `str.isdigit` (ASCII digits; false on `""`). -/
def pyIsdigit (s : String) : Bool :=
  !s.data.isEmpty && s.data.all Char.isDigit

/-- Model of `int(s)` for a digit-only string `s`. -/
def digitsToNat (s : String) : Nat :=
  s.data.foldl (fun n c => n * 10 + (c.toNat - 48)) 0

/-- `type(current_obj).__name__`. -/
def typeName : Value → String
  | .int _ => "int"
  | .str _ => "str"
  | .dict _ => "dict"
  | .list _ => "list"
  | .obj c _ => c

/-- Model of `getattr(current_obj, attr)` succeeding: only structured
objects expose named data fields; on every other shape the attribute
lookup raises `AttributeError` (`none`). -/
def getattrOpt : Value → String → Option Value
  | .obj _ fields, attr => alLookup fields attr
  | _, _ => none

/-- The body of the `try` block of `resolve`, for one step: dict ->
keyed lookup; (list|tuple) with digit-only step -> indexed lookup;
otherwise -> attribute lookup.  `none` models a raised `KeyError`,
`IndexError` or `AttributeError`. -/
def stepLookup (current : Value) (attr : String) : Option Value :=
  match current with
  | .dict fields => alLookup fields attr
  | .list elems =>
      if pyIsdigit attr then elems.get? (digitsToNat attr)
      else getattrOpt (.list elems) attr
  | v => getattrOpt v attr

/-- The `for attr in parts[1:]` loop of `resolve`: per step, the
underscore check first, then the shape-dispatched lookup; a failed
lookup raises `ResolutionFailed` reporting the full original
`key_path`, the step, and the type name of the current value. -/
def resolveSteps (keyPath : String) : Value → List String →
    Except HubError Value
  | current, [] => .ok current
  | current, attr :: rest =>
      if pyStartsWith '_' attr then
        .error (.accessDenied attr)
      else
        match stepLookup current attr with
        | some next => resolveSteps keyPath next rest
        | none =>
            .error (.resolutionFailed keyPath attr (typeName current))

/-- The first dot-separated segment of a key path (`parts[0]`). -/
def refNameOf (keyPath : String) : String :=
  (pySplit '.' keyPath).headD ""

/-- `ObjectHub.resolve`. -/
def resolve (h : ObjectHub) (keyPath : String) : Except HubError Value :=
  let parts := pySplit '.' keyPath
  let refName := parts.headD ""
  match alLookup h._objects refName with
  | none =>
      .error (.unresolvedAlias refName h.instance_name
        (alKeys h._objects))
  | some currentObj => resolveSteps keyPath currentObj (parts.drop 1)

/-- The traversal loop in explicit state-passing form: the registry
state is threaded through every iteration and returned alongside the
result, so that the absence of mutation is a provable statement rather
than a modelling choice. -/
def resolveStepsSt (h : ObjectHub) (keyPath : String) :
    Value → List String → Except HubError Value × ObjectHub
  | current, [] => (.ok current, h)
  | current, attr :: rest =>
      if pyStartsWith '_' attr then
        (.error (.accessDenied attr), h)
      else
        match stepLookup current attr with
        | some next => resolveStepsSt h keyPath next rest
        | none =>
            (.error (.resolutionFailed keyPath attr (typeName current)), h)

/-- `ObjectHub.resolve` in state-passing form (result, final state). -/
def resolveSt (h : ObjectHub) (keyPath : String) :
    Except HubError Value × ObjectHub :=
  let parts := pySplit '.' keyPath
  let refName := parts.headD ""
  match alLookup h._objects refName with
  | none =>
      (.error (.unresolvedAlias refName h.instance_name
        (alKeys h._objects)), h)
  | some currentObj => resolveStepsSt h keyPath currentObj (parts.drop 1)

/-- `ObjectHub.unregister`: delete the alias if present, no-op
otherwise; never fails. -/
def unregister (h : ObjectHub) (aliasArg : String) : ObjectHub :=
  { h with _objects := alErase h._objects aliasArg }

/-- `ObjectHub.clear`: `self._objects.clear()`. -/
def clear (h : ObjectHub) : ObjectHub :=
  { h with _objects := [] }

/-- Registry states reachable from a fresh `ObjectHub` by the public
operations (`resolve` participates through its state-passing form). -/
inductive Reachable : ObjectHub → Prop
  | init (name : String) : Reachable (ObjectHub.init name)
  | reg (h : ObjectHub) (a obj : Value) (force : Bool) (h' : ObjectHub) :
      Reachable h → register h a obj force = .ok h' → Reachable h'
  | unreg (h : ObjectHub) (a : String) :
      Reachable h → Reachable (unregister h a)
  | clr (h : ObjectHub) : Reachable h → Reachable (clear h)
  | res (h : ObjectHub) (kp : String) :
      Reachable h → Reachable (resolveSt h kp).2

example : register (ObjectHub.init "hub") (.str "cfg")
    (.dict [("a", .dict [("b", .int 7)])]) false
    = .ok ⟨"hub", [("cfg", .dict [("a", .dict [("b", .int 7)])])]⟩ := rfl

example : resolve ⟨"hub", [("cfg", .dict [("a", .dict [("b", .int 7)])])]⟩
    "cfg.a.b" = .ok (.int 7) := rfl

example : resolve ⟨"hub", [("seq", .list [.int 10, .int 20, .int 30])]⟩
    "seq.1" = .ok (.int 20) := rfl

example : resolve ⟨"hub", [("seq", .list [.int 10, .int 20, .int 30])]⟩
    "seq.9" = .error (.resolutionFailed "seq.9" "9" "list") := rfl

example : resolve ⟨"hub", []⟩ "missing.x"
    = .error (.unresolvedAlias "missing" "hub" []) := rfl

/-! ### Basic lemmas about the association-list model -/

theorem alKeys_nil : alKeys [] = [] := rfl

theorem alKeys_cons (k : String) (v : Value) (rest : List (String × Value)) :
    alKeys ((k, v) :: rest) = k :: alKeys rest := rfl

theorem alLookup_alInsert_self (m : List (String × Value)) (k : String)
    (v : Value) : alLookup (alInsert m k v) k = some v := by
  induction m with
  | nil => simp [alInsert, alLookup]
  | cons p rest ih =>
      obtain ⟨k', v'⟩ := p
      by_cases hk : k' = k
      · simp [alInsert, hk, alLookup]
      · simp [alInsert, hk, alLookup, ih]

theorem alLookup_alInsert_ne (m : List (String × Value)) (k k' : String)
    (v : Value) (hne : k' ≠ k) :
    alLookup (alInsert m k v) k' = alLookup m k' := by
  have hne' : k ≠ k' := fun h => hne h.symm
  induction m with
  | nil => simp [alInsert, alLookup, hne']
  | cons p rest ih =>
      obtain ⟨k₀, v₀⟩ := p
      by_cases hk : k₀ = k
      · subst hk
        simp [alInsert, alLookup, hne']
      · simp only [alInsert, if_neg hk, alLookup]
        by_cases hk' : k₀ = k'
        · simp [hk']
        · simp [hk', ih]

theorem alKeys_alInsert_value_irrel (m : List (String × Value))
    (k : String) (v w : Value) :
    alKeys (alInsert m k v) = alKeys (alInsert m k w) := by
  induction m with
  | nil => simp [alInsert, alKeys]
  | cons p rest ih =>
      obtain ⟨k₀, v₀⟩ := p
      by_cases hk : k₀ = k
      · simp [alInsert, hk, alKeys_cons]
      · simp only [alInsert, if_neg hk, alKeys_cons, ih]

theorem mem_alKeys_alInsert (m : List (String × Value)) (k k' : String)
    (v : Value) (hmem : k' ∈ alKeys (alInsert m k v)) :
    k' ∈ alKeys m ∨ k' = k := by
  induction m with
  | nil =>
      simp only [alInsert, alKeys_cons, alKeys_nil,
        List.mem_singleton] at hmem
      exact Or.inr hmem
  | cons p rest ih =>
      obtain ⟨k₀, v₀⟩ := p
      by_cases hk : k₀ = k
      · subst hk
        rw [alInsert, if_pos rfl, alKeys_cons] at hmem
        rw [alKeys_cons]
        rcases List.mem_cons.mp hmem with h | h
        · exact Or.inr h
        · exact Or.inl (List.mem_cons_of_mem _ h)
      · rw [alInsert, if_neg hk, alKeys_cons] at hmem
        rw [alKeys_cons]
        rcases List.mem_cons.mp hmem with h | h
        · exact Or.inl (List.mem_cons.mpr (Or.inl h))
        · rcases ih h with h' | h'
          · exact Or.inl (List.mem_cons_of_mem _ h')
          · exact Or.inr h'

theorem mem_alKeys_of_alLookup (m : List (String × Value)) (k : String)
    (v : Value) (hl : alLookup m k = some v) : k ∈ alKeys m := by
  induction m with
  | nil => simp [alLookup] at hl
  | cons p rest ih =>
      obtain ⟨k₀, v₀⟩ := p
      by_cases hk : k₀ = k
      · rw [alKeys_cons, hk]
        exact List.mem_cons_self _ _
      · rw [alLookup, if_neg hk] at hl
        exact List.mem_cons_of_mem _ (ih hl)

theorem mem_alKeys_alErase (m : List (String × Value)) (a k : String)
    (hmem : k ∈ alKeys (alErase m a)) : k ∈ alKeys m := by
  induction m with
  | nil => simpa [alErase] using hmem
  | cons p rest ih =>
      obtain ⟨k₀, v₀⟩ := p
      by_cases hk : k₀ = a
      · rw [alErase, if_pos hk] at hmem
        exact List.mem_cons_of_mem _ hmem
      · rw [alErase, if_neg hk, alKeys_cons] at hmem
        rw [alKeys_cons]
        rcases List.mem_cons.mp hmem with h | h
        · exact List.mem_cons.mpr (Or.inl h)
        · exact List.mem_cons_of_mem _ (ih h)

/-! ### Basic lemmas about the split model -/

theorem pySplitCh_ne_nil (sep : Char) (cs : List Char) :
    pySplitCh sep cs ≠ [] := by
  cases cs with
  | nil => simp [pySplitCh]
  | cons c cs' =>
      by_cases hc : c = sep
      · simp [pySplitCh, hc]
      · simp only [pySplitCh, if_neg hc]
        cases pySplitCh sep cs' <;> simp

theorem sep_not_mem_of_mem_pySplitCh (sep : Char) (cs : List Char)
    (l : List Char) (hmem : l ∈ pySplitCh sep cs) : sep ∉ l := by
  induction cs generalizing l with
  | nil =>
      simp only [pySplitCh, List.mem_singleton] at hmem
      subst hmem; simp
  | cons c cs' ih =>
      by_cases hc : c = sep
      · simp only [pySplitCh, if_pos hc, List.mem_cons] at hmem
        rcases hmem with h | h
        · subst h; simp
        · exact ih l h
      · simp only [pySplitCh, if_neg hc] at hmem
        rcases hsplit : pySplitCh sep cs' with _ | ⟨l₀, ls⟩
        · exact absurd hsplit (pySplitCh_ne_nil sep cs')
        · rw [hsplit] at hmem
          rcases List.mem_cons.mp hmem with h | h
          · subst h
            intro hin
            rcases List.mem_cons.mp hin with h' | h'
            · exact hc h'.symm
            · exact ih l₀ (hsplit ▸ List.mem_cons_self l₀ ls) h'
          · exact ih l (hsplit ▸ List.mem_cons_of_mem l₀ h)

theorem pySplitCh_of_not_mem (sep : Char) (cs : List Char)
    (hni : sep ∉ cs) : pySplitCh sep cs = [cs] := by
  induction cs with
  | nil => simp [pySplitCh]
  | cons c cs' ih =>
      simp only [List.mem_cons, not_or] at hni
      have hc : c ≠ sep := fun h => hni.1 h.symm
      simp [pySplitCh, hc, ih hni.2]

/-! ### Inversion and unfolding lemmas for the operations -/

theorem register_ok_iff (h h' : ObjectHub) (s : String) (v : Value)
    (force : Bool) :
    register h (.str s) v force = .ok h' ↔
      s ≠ "" ∧ (alLookup h._objects s = none ∨ force = true) ∧
      h' = { h with _objects := alInsert h._objects s v } := by
  constructor
  · intro hr
    simp only [register] at hr
    split_ifs at hr with h1 h2
    injection hr with heq
    refine ⟨h1, ?_, heq.symm⟩
    by_cases hf : force
    · exact Or.inr hf
    · left
      rw [Bool.not_eq_true, Bool.and_eq_false_iff] at h2
      rcases h2 with h2 | h2
      · exact Option.not_isSome_iff_eq_none.mp (by simp [h2])
      · simp at h2
        exact absurd h2 hf
  · rintro ⟨h1, h2, rfl⟩
    simp only [register, if_neg h1]
    have hcond : ((alLookup h._objects s).isSome && !force) = false := by
      rcases h2 with h2 | h2
      · simp [h2]
      · simp [h2]
    rw [if_neg (by simp [hcond])]

theorem resolveStepsSt_eq (h : ObjectHub) (kp : String) (cur : Value)
    (steps : List String) :
    resolveStepsSt h kp cur steps = (resolveSteps kp cur steps, h) := by
  induction steps generalizing cur with
  | nil => rfl
  | cons attr rest ih =>
      simp only [resolveStepsSt, resolveSteps]
      by_cases hu : pyStartsWith '_' attr
      · simp [hu]
      · simp only [if_neg hu]
        cases stepLookup cur attr with
        | some next => exact ih next
        | none => rfl

theorem resolveSt_eq (h : ObjectHub) (kp : String) :
    resolveSt h kp = (resolve h kp, h) := by
  simp only [resolveSt, resolve]
  cases hcase : alLookup h._objects ((pySplit '.' kp).headD "") with
  | none => rfl
  | some v => exact resolveStepsSt_eq h kp v _

theorem resolve_of_lookup_none (h : ObjectHub) (kp : String)
    (hnone : alLookup h._objects (refNameOf kp) = none) :
    resolve h kp = .error (.unresolvedAlias (refNameOf kp)
      h.instance_name (alKeys h._objects)) := by
  rw [refNameOf] at hnone
  simp only [resolve, hnone]
  rfl

theorem resolve_of_lookup_some (h : ObjectHub) (kp : String) (v : Value)
    (hsome : alLookup h._objects (refNameOf kp) = some v) :
    resolve h kp = resolveSteps kp v ((pySplit '.' kp).drop 1) := by
  rw [refNameOf] at hsome
  simp only [resolve, hsome]

/-! ### The reachable-state invariant -/

theorem reachable_keys_ne_empty (h : ObjectHub) (hr : Reachable h) :
    ∀ k ∈ alKeys h._objects, k ≠ "" := by
  induction hr with
  | init name => intro k hk; simp [ObjectHub.init, alKeys] at hk
  | reg h a obj force h' hr hok ih =>
      intro k hk
      cases a with
      | str s =>
          rw [register_ok_iff] at hok
          obtain ⟨hs, -, rfl⟩ := hok
          rcases mem_alKeys_alInsert _ _ _ _ hk with hmem | heq
          · exact ih k hmem
          · exact heq ▸ hs
      | int n => simp [register] at hok
      | dict fields => simp [register] at hok
      | list elems => simp [register] at hok
      | obj c fields => simp [register] at hok
  | unreg h a hr ih =>
      intro k hk
      exact ih k (mem_alKeys_alErase _ _ _ hk)
  | clr h hr ih => intro k hk; simp [clear, alKeys] at hk
  | res h kp hr ih =>
      intro k hk
      rw [resolveSt_eq] at hk
      exact ih k hk

theorem dot_not_mem_refNameOf (kp : String) :
    '.' ∉ (refNameOf kp).data := by
  rw [refNameOf, pySplit]
  rcases hsp : pySplitCh '.' kp.data with _ | ⟨l, ls⟩
  · exact absurd hsp (pySplitCh_ne_nil '.' kp.data)
  · simp only [List.map_cons, List.headD_cons]
    exact sep_not_mem_of_mem_pySplitCh '.' kp.data l
      (hsp ▸ List.mem_cons_self l ls)

/-! ### The claims -/

/-- C1, as frozen, is false on the code: `register` accepts any
non-empty string, including one containing `'.'`, but `resolve` splits
its argument on `'.'` and looks up only the first segment.  Here, on
an initially empty registry, `register("a.b", 1)` succeeds, yet
`resolve("a.b")` does not return the registered value: it looks up
`"a"`, which is not registered, and fails. -/
theorem c1_counterexample :
    register (ObjectHub.init "hub") (.str "a.b") (.int 1) false
      = .ok ⟨"hub", [("a.b", .int 1)]⟩ ∧
    resolve ⟨"hub", [("a.b", .int 1)]⟩ "a.b"
      = .error (.unresolvedAlias "a" "hub" ["a.b"]) :=
  ⟨rfl, rfl⟩

/-- C1 (amended): for every non-empty string alias `a` that contains
no `'.'` character and every value `v`, after `register(a, v)`
succeeds, `resolve(a)` returns exactly `v` (zero traversal steps
resolve to the registered object itself, unmodified). -/
theorem c1_register_resolve_roundtrip (h h' : ObjectHub) (a : String)
    (v : Value) (force : Bool) (hdot : '.' ∉ a.data)
    (hok : register h (.str a) v force = .ok h') :
    resolve h' a = .ok v := by
  rw [register_ok_iff] at hok
  obtain ⟨hne, -, rfl⟩ := hok
  have hsplit : pySplit '.' a = [a] := by
    rw [pySplit, pySplitCh_of_not_mem '.' a.data hdot]
    rfl
  have hl : alLookup (alInsert h._objects a v) a = some v :=
    alLookup_alInsert_self h._objects a v
  have href : refNameOf a = a := by
    rw [refNameOf, hsplit]
    rfl
  rw [resolve_of_lookup_some _ a v (by rw [href]; exact hl), hsplit]
  rfl

/-- Witness for C1: a concrete successful round trip. -/
theorem c1_witness :
    resolve ⟨"hub", [("cfg", Value.int 5)]⟩ "cfg" = .ok (Value.int 5) :=
  c1_register_resolve_roundtrip (ObjectHub.init "hub")
    ⟨"hub", [("cfg", Value.int 5)]⟩ "cfg" (Value.int 5) false
    (by decide) rfl

/-- C2: in any reachable registry state, if alias `a` is present with
stored value `w`, then `register(a, v2)` with `force=false` fails with
`AliasCollision` (and, the operation producing no new state, the
stored value for `a` remains `w`), while `register(a, v2)` with
`force=true` succeeds and the stored value for `a` becomes `v2`. -/
theorem c2_collision_and_force (h : ObjectHub) (a : String)
    (w v2 : Value) (hreach : Reachable h)
    (hpres : alLookup h._objects a = some w) :
    register h (.str a) v2 false = .error (.aliasCollision a) ∧
    register h (.str a) v2 true
      = .ok { h with _objects := alInsert h._objects a v2 } ∧
    alLookup (alInsert h._objects a v2) a = some v2 := by
  have hne : a ≠ "" :=
    reachable_keys_ne_empty h hreach a (mem_alKeys_of_alLookup _ _ _ hpres)
  refine ⟨?_, ?_, alLookup_alInsert_self _ _ _⟩
  · simp only [register]
    rw [if_neg hne, if_pos (by simp [hpres])]
  · rw [register_ok_iff]
    exact ⟨hne, Or.inr rfl, rfl⟩

/-- Witness for C2 at a concrete reachable state. -/
theorem c2_witness :
    register ⟨"hub", [("cfg", Value.int 1)]⟩ (.str "cfg") (.int 2) false
      = .error (.aliasCollision "cfg") ∧
    register ⟨"hub", [("cfg", Value.int 1)]⟩ (.str "cfg") (.int 2) true
      = .ok ⟨"hub", [("cfg", Value.int 2)]⟩ ∧
    alLookup [("cfg", Value.int 2)] "cfg" = some (Value.int 2) :=
  c2_collision_and_force ⟨"hub", [("cfg", Value.int 1)]⟩ "cfg"
    (Value.int 1) (Value.int 2)
    (Reachable.reg (ObjectHub.init "hub") (Value.str "cfg")
      (Value.int 1) false ⟨"hub", [("cfg", Value.int 1)]⟩
      (Reachable.init "hub") rfl)
    rfl

/-- C3: `register` fails with `InvalidAlias` whenever the alias is the
empty string or not a string at all, for every value and every `force`
flag (the error is raised before the collision check and before the
table is touched, so no state is produced). -/
theorem c3_invalid_alias (h : ObjectHub) (aliasArg obj : Value)
    (force : Bool) (hbad : ∀ s : String, aliasArg = .str s → s = "") :
    register h aliasArg obj force = .error (.invalidAlias aliasArg) := by
  cases aliasArg with
  | str s =>
      have hs : s = "" := hbad s rfl
      subst hs
      simp [register]
  | int n => rfl
  | dict fields => rfl
  | list elems => rfl
  | obj c fields => rfl

/-- Witness for C3: a non-string alias is rejected even with
`force=true`; so is the empty string. -/
theorem c3_witness :
    register (ObjectHub.init "hub") (.int 123) (.int 5) true
      = .error (.invalidAlias (.int 123)) ∧
    register (ObjectHub.init "hub") (.str "") (.int 5) true
      = .error (.invalidAlias (.str "")) :=
  ⟨c3_invalid_alias (ObjectHub.init "hub") (.int 123) (.int 5) true
      (fun _ hs => nomatch hs),
   c3_invalid_alias (ObjectHub.init "hub") (.str "") (.int 5) true
      (fun _ hs => by injection hs with h; exact h.symm)⟩

/-- C4, as frozen, is false on the code: with alias `"cfg"` registered
to a dict, the key path `"cfg.missing._x"` contains the
underscore-prefixed step `"_x"`, yet `resolve` fails with
`ResolutionFailed` at the earlier step `"missing"`, not with
`AccessDenied`: an underscore step only triggers `AccessDenied` when
the traversal actually reaches it. -/
theorem c4_counterexample :
    resolve ⟨"hub", [("cfg", .dict [("a", .int 1)])]⟩ "cfg.missing._x"
      = .error (.resolutionFailed "cfg.missing._x" "missing" "dict") :=
  rfl

/-- C4 (amended): whenever the traversal reaches a step that begins
with `'_'` (that is, every earlier step's lookup succeeded), `resolve`
fails with `AccessDenied` at that step; the check precedes any lookup
attempt for the step, so the failure is independent of the current
value — it occurs whether or not a key, index, or attribute of that
name exists on it. -/
theorem c4_access_denied (kp : String) (cur : Value) (s : String)
    (rest : List String) (hs : pyStartsWith '_' s = true) :
    resolveSteps kp cur (s :: rest) = .error (.accessDenied s) := by
  simp [resolveSteps, hs]

/-- Witness for C4: the step `"_secret"` is denied even though the
current object has a field of exactly that name. -/
theorem c4_witness :
    resolveSteps "obj._secret"
      (Value.obj "Widget" [("_secret", Value.int 7)]) ["_secret"]
      = .error (.accessDenied "_secret") :=
  c4_access_denied "obj._secret"
    (Value.obj "Widget" [("_secret", Value.int 7)]) "_secret" [] rfl

/-- C5: whenever the first dot-separated segment of `keyPath` is not a
key of the table, `resolve` fails with `UnresolvedAlias` carrying that
segment, the registry's name, and the full current list of registered
aliases. -/
theorem c5_unresolved_alias (h : ObjectHub) (kp : String)
    (hmiss : alLookup h._objects (refNameOf kp) = none) :
    resolve h kp = .error (.unresolvedAlias (refNameOf kp)
      h.instance_name (alKeys h._objects)) :=
  resolve_of_lookup_none h kp hmiss

/-- Witness for C5: the error payload lists the available aliases. -/
theorem c5_witness :
    resolve ⟨"hub", [("cfg", Value.int 1)]⟩ "missing.x"
      = .error (.unresolvedAlias "missing" "hub" ["cfg"]) :=
  c5_unresolved_alias ⟨"hub", [("cfg", Value.int 1)]⟩ "missing.x" rfl

/-- C6: the per-step lookup dispatches in the fixed priority order of
the source: a mapping is always accessed by key (even for a digit-only
step), a sequence is indexed only when the step is digit-only and
otherwise falls through to attribute lookup, and every other shape
goes to attribute lookup. -/
theorem c6_dispatch_order :
    (∀ (fields : List (String × Value)) (attr : String),
        stepLookup (.dict fields) attr = alLookup fields attr) ∧
    (∀ (elems : List Value) (attr : String), pyIsdigit attr = true →
        stepLookup (.list elems) attr = elems.get? (digitsToNat attr)) ∧
    (∀ (elems : List Value) (attr : String), pyIsdigit attr = false →
        stepLookup (.list elems) attr
          = getattrOpt (.list elems) attr) ∧
    (∀ (c : String) (fields : List (String × Value)) (attr : String),
        stepLookup (.obj c fields) attr
          = getattrOpt (.obj c fields) attr) ∧
    (∀ (n : Int) (attr : String),
        stepLookup (.int n) attr = getattrOpt (.int n) attr) ∧
    (∀ (s attr : String),
        stepLookup (.str s) attr = getattrOpt (.str s) attr) :=
  ⟨fun _ _ => rfl,
   fun _ a hd => by simp [stepLookup, hd],
   fun _ a hd => by simp [stepLookup, hd],
   fun _ _ _ => rfl, fun _ _ => rfl, fun _ _ => rfl⟩

/-- Witness for C6: a digit-only step against a mapping is a keyed
lookup, a digit-only step against a sequence is an index, and a
non-digit step against a sequence falls through to attribute lookup
(and so fails on a plain list). -/
theorem c6_witness :
    stepLookup (Value.dict [("1", Value.int 9)]) "1"
      = some (Value.int 9) ∧
    stepLookup (Value.list [Value.int 10, Value.int 20]) "1"
      = some (Value.int 20) ∧
    stepLookup (Value.list [Value.int 10, Value.int 20]) "x" = none :=
  ⟨c6_dispatch_order.1 [("1", Value.int 9)] "1",
   c6_dispatch_order.2.1 [Value.int 10, Value.int 20] "1" rfl,
   c6_dispatch_order.2.2.1 [Value.int 10, Value.int 20] "x" rfl⟩

/-- C7: a traversal step whose lookup fails (missing key, missing
attribute, or index out of range) makes `resolve` fail with
`ResolutionFailed` carrying the full original `keyPath` (which
`resolve` hands unchanged to the traversal loop, second conjunct), the
step at which traversal stopped, and the runtime type name of the
current value; the error carries no value, so nothing
partially-resolved is returned. -/
theorem c7_resolution_failed :
    (∀ (kp attr : String) (cur : Value) (rest : List String),
        pyStartsWith '_' attr = false → stepLookup cur attr = none →
        resolveSteps kp cur (attr :: rest)
          = .error (.resolutionFailed kp attr (typeName cur))) ∧
    (∀ (h : ObjectHub) (kp : String) (v : Value),
        alLookup h._objects (refNameOf kp) = some v →
        resolve h kp = resolveSteps kp v ((pySplit '.' kp).drop 1)) := by
  constructor
  · intro kp attr cur rest hu hl
    simp [resolveSteps, hu, hl]
  · exact resolve_of_lookup_some

/-- Witness for C7: a missing dict key stops the traversal with the
original path, the failing step, and the type name `"dict"`. -/
theorem c7_witness :
    resolveSteps "cfg.a.c" (Value.dict [("b", Value.int 7)]) ["c"]
      = .error (.resolutionFailed "cfg.a.c" "c" "dict") :=
  c7_resolution_failed.1 "cfg.a.c" "c" (Value.dict [("b", Value.int 7)])
    [] rfl rfl

/-- C8: `resolve` has no side effect on the registry: in state-passing
form it returns the registry unchanged alongside exactly the result of
the pure `resolve`, whether it succeeds or fails with any error. -/
theorem c8_resolve_no_side_effect (h : ObjectHub) (kp : String) :
    resolveSt h kp = (resolve h kp, h) :=
  resolveSt_eq h kp

/-- C9: in every state reachable from a fresh registry by any sequence
of `register`, `unregister`, `clear`, and `resolve` operations, every
key of the table is a non-empty string. -/
theorem c9_keys_nonempty (h : ObjectHub) (hr : Reachable h) :
    ∀ k ∈ alKeys h._objects, k ≠ "" :=
  reachable_keys_ne_empty h hr

/-- Witness for C9 at a concrete reachable state. -/
theorem c9_witness : "cfg" ≠ "" :=
  c9_keys_nonempty ⟨"hub", [("cfg", Value.int 1)]⟩
    (Reachable.reg (ObjectHub.init "hub") (Value.str "cfg")
      (Value.int 1) false ⟨"hub", [("cfg", Value.int 1)]⟩
      (Reachable.init "hub") rfl)
    "cfg" (List.mem_cons_self _ _)

/-- C10: `register` accepts any non-empty string alias, including one
containing `'.'` (first conjunct); the alias segment `resolve` uses is
the first dot-separated segment of the key path and hence never
contains a `'.'` (second conjunct); consequently an entry whose key
contains a `'.'` is unreachable through `resolve`: the value stored
under such a key is irrelevant to the result of every `resolve` call
(third conjunct). -/
theorem c10_dotted_alias_unreachable :
    (∀ (h : ObjectHub) (a : String) (v : Value) (force : Bool),
        a ≠ "" → (alLookup h._objects a = none ∨ force = true) →
        register h (.str a) v force
          = .ok { h with _objects := alInsert h._objects a v }) ∧
    (∀ (kp a : String), '.' ∈ a.data → refNameOf kp ≠ a) ∧
    (∀ (h : ObjectHub) (a : String) (v w : Value) (kp : String),
        '.' ∈ a.data →
        resolve { h with _objects := alInsert h._objects a v } kp
          = resolve { h with _objects := alInsert h._objects a w } kp) := by
  have hrefne : ∀ (kp a : String), '.' ∈ a.data → refNameOf kp ≠ a := by
    intro kp a hdot heq
    have : '.' ∈ (refNameOf kp).data := by rw [heq]; exact hdot
    exact dot_not_mem_refNameOf kp this
  refine ⟨?_, hrefne, ?_⟩
  · intro h a v force h1 h2
    exact (register_ok_iff h _ a v force).mpr ⟨h1, h2, rfl⟩
  · intro h a v w kp hdot
    have hne : refNameOf kp ≠ a := hrefne kp a hdot
    have hl : alLookup (alInsert h._objects a v) (refNameOf kp)
        = alLookup (alInsert h._objects a w) (refNameOf kp) := by
      rw [alLookup_alInsert_ne _ _ _ _ hne, alLookup_alInsert_ne _ _ _ _ hne]
    cases hc : alLookup (alInsert h._objects a w) (refNameOf kp) with
    | none =>
        have hv : alLookup (alInsert h._objects a v) (refNameOf kp)
            = none := by rw [hl, hc]
        rw [resolve_of_lookup_none _ _ hv, resolve_of_lookup_none _ _ hc]
        rw [show alKeys (alInsert h._objects a v)
            = alKeys (alInsert h._objects a w) from
          alKeys_alInsert_value_irrel _ _ _ _]
    | some val =>
        have hv : alLookup (alInsert h._objects a v) (refNameOf kp)
            = some val := by rw [hl, hc]
        rw [resolve_of_lookup_some _ _ _ hv, resolve_of_lookup_some _ _ _ hc]

/-- Witness for C10: the value registered under the dotted alias
`"a.b"` does not influence `resolve("a.b")` (which cannot reach it and
fails with `UnresolvedAlias` on `"a"`). -/
theorem c10_witness :
    resolve ⟨"hub", [("a.b", Value.int 1)]⟩ "a.b"
      = resolve ⟨"hub", [("a.b", Value.int 2)]⟩ "a.b" :=
  c10_dotted_alias_unreachable.2.2 (ObjectHub.init "hub") "a.b"
    (Value.int 1) (Value.int 2) "a.b" (by decide)
